import Mathlib

/-!
Verification of the memory-hook core of `hcreative_streamwidget`
(`src/hcreative_streamwidget/memhook.py`), shallowly embedded in Lean 4.

Bytes are modelled as `Nat` values below 256 and byte buffers as `List Nat`.
The target process's address space is modelled as a partial byte map.
Python string dispatch on data-type tags is translated literally, including
its control flow (`str.startswith`, equality chains), so that every branch
of the source is mirrored by a branch of the embedding.
-/

/-- Python `s.startswith(pre)`, computed on the underlying character lists. -/
def pyStartswith (s pre : String) : Bool :=
  List.isPrefixOf pre.data s.data

/-- Result of `MemoryHook.read_value`: a Python value decoded from raw bytes.
Signed and unsigned integer decodes produce Python ints (`Value.int`);
`struct.unpack` of a float tag produces a Python float, represented here by
its little-endian IEEE-754 bit pattern (`Value.f32` / `Value.f64`), since the
bit pattern determines the float; the fallthrough `return data` produces the
raw byte buffer (`Value.raw`). -/
inductive Value where
  | int (i : Int)
  | f32 (bits : Nat)
  | f64 (bits : Nat)
  | raw (bs : List Nat)
deriving DecidableEq

/-- Shallow embedding of `MemoryHook._get_data_size`: dictionary lookup of the
byte width of a data-type tag, defaulting to 4 for unknown tags. -/
def get_data_size (t : String) : Nat :=
  if t = "int8" then 1
  else if t = "int16" then 2
  else if t = "int32" then 4
  else if t = "int64" then 8
  else if t = "float32" then 4
  else if t = "float64" then 8
  else if t = "uint8" then 1
  else if t = "uint16" then 2
  else if t = "uint32" then 4
  else if t = "uint64" then 8
  else 4

/-- Little-endian unsigned interpretation of a byte buffer, as used by
`struct.unpack` with formats `<B`, `<H`, `<I`, `<Q`. -/
def leNat (bs : List Nat) : Nat :=
  bs.foldr (fun b acc => b + 256 * acc) 0

/-- Two's-complement reinterpretation of an unsigned `width`-byte value,
as used by `struct.unpack` with formats `<b`, `<h`, `<i`, `<q`. -/
def toSigned (u : Nat) (width : Nat) : Int :=
  if u < 2 ^ (8 * width - 1) then (u : Int) else (u : Int) - 2 ^ (8 * width)

/-- Integer decode of a byte buffer: signed (two's complement) or unsigned,
little-endian, at a given byte width. -/
def unpackInt (signed : Bool) (width : Nat) (data : List Nat) : Int :=
  if signed then toSigned (leNat data) width else (leNat data : Int)

/-- Shallow embedding of the decoding half of `MemoryHook.read_value`
(lines 231-248 of memhook.py), applied to the byte buffer read from memory.
The branch structure is the source's: the outer test is
`self._data_type.startswith('int')`, which is False for every `uint*` tag, so
the unsigned comparisons inside that branch are unreachable and all `uint*`
tags fall through to the final `return data`. -/
def decode (t : String) (data : List Nat) : Value :=
  if pyStartswith t "int" then
    let signed := !(pyStartswith t "u")
    if t = "int8" ∨ t = "uint8" then Value.int (unpackInt signed 1 data)
    else if t = "int16" ∨ t = "uint16" then Value.int (unpackInt signed 2 data)
    else if t = "int32" ∨ t = "uint32" then Value.int (unpackInt signed 4 data)
    else if t = "int64" ∨ t = "uint64" then Value.int (unpackInt signed 8 data)
    else Value.raw data
  else if pyStartswith t "float" then
    if t = "float32" then Value.f32 (leNat data)
    else if t = "float64" then Value.f64 (leNat data)
    else Value.raw data
  else Value.raw data

/-- Payload of the `scan_memory` command: the Python `value` field is an int
or a bytes object. Float payloads are possible through the transport but are
not exercised by any claim settled here, and the IEEE packing of a Python
float is not modelled (see `scan_pack`). -/
inductive ScanVal where
  | int (i : Int)
  | bytes (bs : List Nat)
deriving DecidableEq

/-- Little-endian byte serialization of an unsigned value at a given width,
as produced by `struct.pack` formats `<B`, `<H`, `<I`, `<Q`. -/
def toLE (u : Nat) : Nat → List Nat
  | 0 => []
  | w + 1 => u % 256 :: toLE (u / 256) w

/-- Shallow embedding of `struct.pack` for integer formats: range-checks the
value (signed two's complement or unsigned) and serializes little-endian;
`none` models the `struct.error` / `TypeError` raised on a bad value. -/
def packInt (signed : Bool) (width : Nat) (v : ScanVal) : Option (List Nat) :=
  match v with
  | ScanVal.bytes _ => none
  | ScanVal.int i =>
    if signed then
      if -(2 ^ (8 * width - 1) : Int) ≤ i ∧ i < 2 ^ (8 * width - 1) then
        some (toLE (i % (2 ^ (8 * width) : Int)).toNat width)
      else none
    else
      if 0 ≤ i ∧ i < (2 ^ (8 * width) : Int) then
        some (toLE i.toNat width)
      else none

/-- Shallow embedding of the search-pattern packing in `MemoryHook.scan_memory`
(lines 380-402 of memhook.py). As in `decode`, the outer test is
`data_type.startswith('int')`, which is False for `uint*` tags, so an integer
payload under a `uint*` tag falls to the final `else`, where a non-bytes value
packs as `bytes(size)` — a zero buffer of the default width. A `none` result
models an exception escaping the packing code. The `float32`/`float64`
branches pack a Python float with `struct.pack('<f'/'<d', ...)`; the
float-payload case is left unmodelled (`none`) and unused by the claims. -/
def scan_pack (t : String) (v : ScanVal) : Option (List Nat) :=
  let size := get_data_size t
  if pyStartswith t "int" then
    let signed := !(pyStartswith t "u")
    if t = "int8" ∨ t = "uint8" then packInt signed 1 v
    else if t = "int16" ∨ t = "uint16" then packInt signed 2 v
    else if t = "int32" ∨ t = "uint32" then packInt signed 4 v
    else if t = "int64" ∨ t = "uint64" then packInt signed 8 v
    else some (List.replicate size 0)
  else if pyStartswith t "float" then
    if t = "float32" ∨ t = "float64" then none
    else some (List.replicate size 0)
  else
    match v with
    | ScanVal.bytes bs => some bs
    | ScanVal.int _ => some (List.replicate size 0)

example : decode "uint8" [5] = Value.raw [5] := by decide
example : decode "int8" [251] = Value.int (-5) := by decide
example : decode "int32" [42, 0, 0, 0] = Value.int 42 := by decide
example : scan_pack "uint8" (ScanVal.int 5) = some [0] := by decide
example : scan_pack "int16" (ScanVal.int (-2)) = some [254, 255] := by decide

/-! ## Address space and reads

The attached process's memory is a partial map from addresses to bytes.
Addresses are `Int` because a pointer chain adds signed Python ints to the
unsigned 64-bit value unpacked at each hop. -/

/-- Address space of the attached target process: `some b` when the byte at
the address is readable, `none` when the address is unmapped. -/
def Memory : Type := Int → Option Nat

/-- Shallow embedding of `MemoryHook._read_memory` (the attached case):
`ReadProcessMemory` succeeds and fills the whole buffer exactly when every
byte of `[addr, addr + size)` is mapped; otherwise the call reports failure
(`not success or bytes_read.value != size`) and the method raises, modelled
as `none`. -/
def readMemory (mem : Memory) (addr : Int) : Nat → Option (List Nat)
  | 0 => some []
  | n + 1 =>
    match mem addr, readMemory mem (addr + 1) n with
    | some b, some bs => some (b :: bs)
    | _, _ => none

/-- Failure modes of `MemoryHook._calculate_address` / `_read_memory`: the
`RuntimeError("Base address not set")` raised when `not self.base_address`,
and the `RuntimeError("Failed to read memory at ...")` raised when a read
cannot retrieve the requested bytes. Both are caught at the command boundary
and surfaced as failed results, never a crash. -/
inductive ResolveError where
  | baseNotSet
  | readFailure (addr : Int)
deriving DecidableEq

/-- Pointer-chain walk of `MemoryHook._calculate_address`: for each offset,
read 8 bytes at the current address, interpret them as a little-endian
unsigned 64-bit pointer (`struct.unpack('<Q', ...)`), and add the offset. -/
def resolveChain (mem : Memory) : Int → List Int → Except ResolveError Int
  | addr, [] => Except.ok addr
  | addr, off :: rest =>
    match readMemory mem addr 8 with
    | none => Except.error (ResolveError.readFailure addr)
    | some bs => resolveChain mem ((leNat bs : Int) + off) rest

/-- Shallow embedding of `MemoryHook._calculate_address` (lines 212-223 of
memhook.py). The guard is Python's truthiness test `if not self.base_address`,
which fires both when the base address was never set and when it is the
integer 0; hence the `base = 0` branch. -/
def calculate_address (mem : Memory) (base : Nat) (offsets : List Int) :
    Except ResolveError Int :=
  if base = 0 then Except.error ResolveError.baseNotSet
  else resolveChain mem (base : Int) offsets

/-- Predicate: walking the pointer chain from `addr` through `offsets`, some
intermediate 8-byte pointer read fails (its address range is not fully
mapped). Empty chains perform no reads, so they never fail. -/
def chainFails (mem : Memory) : Int → List Int → Prop
  | _, [] => False
  | addr, off :: rest =>
    readMemory mem addr 8 = none ∨
    ∃ bs, readMemory mem addr 8 = some bs ∧
      chainFails mem ((leNat bs : Int) + off) rest

example : calculate_address (fun _ => some 0) 5 [] = Except.ok 5 := rfl
example : calculate_address (fun _ => none) 0 [] =
    Except.error ResolveError.baseNotSet := rfl
example : calculate_address (fun _ => none) 1 [4] =
    Except.error (ResolveError.readFailure 1) := rfl

/-! ## Monitor loop

One poll of the `monitor` closure in `MemoryHook.start_monitoring` reads the
value (`Except.ok v`) or raises (`Except.error msg`, logged and skipped);
a successful read is compared with Python `!=` against `last_value`, which
starts as `None` in every freshly started loop. On a change, `last_value`
is updated and the callback fires once with the new value — the callback
installed by `MemoryHookBuiltin.start_memory_monitoring` pushes exactly one
`memory_value_changed` notification per invocation. -/

/-- NaN test on an IEEE-754 bit pattern with `mBits` mantissa bits and
`eBits` exponent bits: exponent all ones and mantissa nonzero. -/
def isNanBits (mBits eBits bits : Nat) : Bool :=
  (bits / 2 ^ mBits) % 2 ^ eBits == 2 ^ eBits - 1 && bits % 2 ^ mBits != 0

/-- Zero test on an IEEE-754 bit pattern (`+0.0` or `-0.0`): all bits below
the sign bit are zero. -/
def isZeroBits (signPos bits : Nat) : Bool :=
  bits % 2 ^ signPos == 0

/-- Python `==` on the values produced by `decode`. Ints and byte buffers
compare structurally. Floats compare numerically: `NaN == x` is always
False, `+0.0 == -0.0` is True, and otherwise two non-NaN patterns of the
same width are numerically equal exactly when they are bit-equal. The
monitor loop only ever compares two values decoded with the same tag, so
cross-constructor comparisons (unreachable there) are False. -/
def pyEq : Value → Value → Bool
  | Value.int a, Value.int b => a == b
  | Value.f32 a, Value.f32 b =>
    if isNanBits 23 8 a || isNanBits 23 8 b then false
    else if isZeroBits 31 a && isZeroBits 31 b then true
    else a == b
  | Value.f64 a, Value.f64 b =>
    if isNanBits 52 11 a || isNanBits 52 11 b then false
    else if isZeroBits 63 a && isZeroBits 63 b then true
    else a == b
  | Value.raw a, Value.raw b => a == b
  | _, _ => false

/-- Python `current_value != last_value` where `last_value` may be `None`:
no value produced by `read_value` equals `None`, so the comparison is True
whenever `last` is `none`. -/
def pyNeLast (v : Value) : Option Value → Bool
  | none => true
  | some w => !(pyEq v w)

/-- One iteration of the `monitor` loop body on state
(`last_value`, notifications emitted so far): a raised read is logged and
changes nothing; a successful read fires one notification with the new
value exactly when it differs (Python `!=`) from `last_value`, updating
`last_value` to it. -/
def monitorStep : Option Value × List Value → Except String Value →
    Option Value × List Value
  | (last, ns), Except.error _ => (last, ns)
  | (last, ns), Except.ok v =>
    if pyNeLast v last then (some v, ns ++ [v]) else (last, ns)

/-- One monitoring session over a finite trace of poll outcomes, started by
`start_monitoring`: the loop-local `last_value` begins as `None` and no
notifications have been emitted. Returns the final `last_value` and the
sequence of notified values in emission order. A restarted session runs
`monitorRun` afresh on its own trace, with no state carried over. -/
def monitorRun (reads : List (Except String Value)) : Option Value × List Value :=
  reads.foldl monitorStep (none, [])

example : (monitorRun [Except.ok (Value.int 3), Except.ok (Value.int 3),
    Except.error "boom", Except.ok (Value.int 4)]).2 =
    [Value.int 3, Value.int 4] := by decide

/-! ## Memory scanner

`MemoryHook.scan_memory` walks the address range with `VirtualQueryEx`,
modelled as a query function from an address to the `MEMORY_BASIC_INFORMATION`
of the region reported at that address (`none` when the call returns 0).
The three nested loops of the source (region walk, 4096-byte chunk loop,
byte-position loop) are mirrored by three fuelled recursions; the fuel of
the outer walk is a parameter because the source loop need not terminate on
an arbitrary mock (a region of reported size 0 makes no progress), and every
claim below holds for every fuel. -/

/-- Fields of `MEMORY_BASIC_INFORMATION` consulted by the scanner. -/
structure Region where
  base : Nat
  size : Nat
  state : Nat
  protect : Nat
deriving DecidableEq

/-- Windows `MEM_COMMIT` (0x1000), as stored in `self.MEM_COMMIT`. -/
def MEM_COMMIT : Nat := 4096

/-- Region filter of `scan_memory` (lines 419-420 of memhook.py):
`mem_info.State == self.MEM_COMMIT and (mem_info.Protect & 0xFF) not in
[0x01, 0x04, 0x10]`. The mask `& 0xFF` is `% 256`, which discards the
`PAGE_GUARD` bit 0x100 before the membership test. -/
def scannable (r : Region) : Bool :=
  r.state == MEM_COMMIT &&
    !(r.protect % 256 == 1 || r.protect % 256 == 4 || r.protect % 256 == 16)

/-- Python slice comparison `data[pos:pos + len(search)] == search`: a slice
past the end truncates, so a truncated slice never equals a longer pattern. -/
def matchAt (data search : List Nat) (pos : Nat) : Bool :=
  decide ((data.drop pos).take search.length = search)

/-- Byte-position loop of `scan_memory` (lines 432-438): starting at `pos`
with `fuel` remaining positions (`fuel` enters as
`data.length + 1 - search.length`, the iteration count of
`while pos < len(data) - len(search_bytes) + 1`), append `addr + pos` for
every match, breaking as soon as `max_results` addresses are collected. -/
def posLoop (search data : List Nat) (addr maxResults : Nat) :
    Nat → Nat → List Nat → List Nat
  | 0, _, acc => acc
  | fuel + 1, pos, acc =>
    if matchAt data search pos then
      if maxResults ≤ acc.length + 1 then acc ++ [addr + pos]
      else posLoop search data addr maxResults fuel (pos + 1) (acc ++ [addr + pos])
    else posLoop search data addr maxResults fuel (pos + 1) acc

/-- Chunk loop of `scan_memory` (lines 425-443): `for offset in
range(0, region_size, 4096)`, read `min(4096, region_size - offset)` bytes at
`region_start + offset`; a failed read is skipped silently (`except: pass`);
after a successful chunk, break when `max_results` is reached. `fuel` bounds
the number of iterations and enters as `regionSize`, an overapproximation of
the iteration count `ceil(regionSize / 4096)`; the `offset < regionSize`
guard makes the result independent of any excess fuel. -/
def chunkLoop (mem : Memory) (search : List Nat)
    (regionStart regionSize maxResults : Nat) :
    Nat → Nat → List Nat → List Nat
  | 0, _, acc => acc
  | fuel + 1, offset, acc =>
    if offset < regionSize then
      match readMemory mem (regionStart + offset : Nat) (min 4096 (regionSize - offset)) with
      | none => chunkLoop mem search regionStart regionSize maxResults fuel (offset + 4096) acc
      | some data =>
        let acc2 := posLoop search data (regionStart + offset) maxResults
          (data.length + 1 - search.length) 0 acc
        if maxResults ≤ acc2.length then acc2
        else chunkLoop mem search regionStart regionSize maxResults fuel (offset + 4096) acc2
    else acc

/-- Region walk of `scan_memory` (lines 404-445): `while current_addr <
max_addr and len(addresses) < max_results`, query the region at the current
address (`VirtualQueryEx` returning 0 breaks the walk), scan it when
`scannable`, and advance by the reported region size. -/
def regionLoop (query : Nat → Option Region) (mem : Memory) (search : List Nat)
    (maxAddr maxResults : Nat) : Nat → Nat → List Nat → List Nat
  | 0, _, acc => acc
  | fuel + 1, cur, acc =>
    if cur < maxAddr ∧ acc.length < maxResults then
      match query cur with
      | none => acc
      | some r =>
        let acc2 :=
          if scannable r then chunkLoop mem search r.base r.size maxResults r.size 0 acc
          else acc
        regionLoop query mem search maxAddr maxResults fuel (cur + r.size) acc2
    else acc

/-- Shallow embedding of `MemoryHook.scan_memory` after the search pattern is
packed: walk the address range `[minAddr, maxAddr)` region by region and
collect up to `maxResults` match addresses. -/
def scan_memory (query : Nat → Option Region) (mem : Memory) (search : List Nat)
    (minAddr maxAddr maxResults fuel : Nat) : List Nat :=
  regionLoop query mem search maxAddr maxResults fuel minAddr []

/-- Consistency of a mocked `VirtualQueryEx`: a region reported at an address
contains that address, and every address of the region reports that same
region. Real `VirtualQueryEx` responses have this shape (regions partition
the address space and the query returns the containing region). -/
def QueryWF (query : Nat → Option Region) : Prop :=
  ∀ a r, query a = some r →
    r.base ≤ a ∧ a < r.base + r.size ∧
      ∀ b, r.base ≤ b → b < r.base + r.size → query b = some r

example :
    scan_memory (fun a => if a < 8 then some ⟨0, 8, 4096, 2⟩ else none)
      (fun a => if a = 4 then some 42 else some 0) [42, 0, 0, 0] 0 8 100 3 =
    [4] := by decide

/-! ## Hook registry

`MemoryHookBuiltin` owns a dict from hook ids to `MemoryHook` objects. The
OS handle table is modelled explicitly as the list of handles currently open,
so that "the old hook's handle is not detached" is expressible: attaching
opens a handle (appends it), and nothing in `create_memory_hook` closes one. -/

/-- Fields of a `MemoryHook` as configured by `create_memory_hook`:
constructor argument, `set_target` arguments, and the handle held after a
successful `attach` (`none` before attaching). -/
structure Hook where
  process_name : String
  base_address : Nat
  offsets : List Int
  data_type : String
  handle : Option Nat
deriving DecidableEq

/-- Python dict assignment `d[k] = v`: replace the entry at `k` or add one. -/
def dictSet (k : String) (v : Hook) : List (String × Hook) → List (String × Hook)
  | [] => [(k, v)]
  | (k', v') :: rest =>
    if k' = k then (k, v) :: rest else (k', v') :: dictSet k v rest

/-- Python dict lookup `d.get(k)`. -/
def dictGet (k : String) : List (String × Hook) → Option Hook
  | [] => none
  | (k', v') :: rest => if k' = k then some v' else dictGet k rest

/-- State touched by `MemoryHookBuiltin.create_memory_hook`: the
`self.hooks` registry and the set of OS process handles currently open. -/
structure BuiltinState where
  hooks : List (String × Hook)
  openHandles : List Nat
deriving DecidableEq

/-- Shallow embedding of `MemoryHookBuiltin.create_memory_hook` (lines
476-490 of memhook.py). `osHandle` is the outcome of `MemoryHook.attach`:
`some h` when a matching process was found and `OpenProcess` returned handle
`h` (which is thereby opened), `none` when the snapshot failed, no process
matched, or `OpenProcess` refused. On success the new hook is stored under
`hook_id`, replacing any previous entry; no handle is closed on any path,
and on failure the state is returned untouched with a failure result. -/
def create_memory_hook (st : BuiltinState) (hookId processName : String)
    (baseAddress : Nat) (offsets : List Int) (dataType : String)
    (osHandle : Option Nat) : BuiltinState × Bool :=
  match osHandle with
  | none => (st, false)
  | some h =>
    ({ hooks := dictSet hookId ⟨processName, baseAddress, offsets, dataType, some h⟩ st.hooks,
       openHandles := st.openHandles ++ [h] }, true)

/-- Discriminator for resolver outcomes: `true` exactly on a successfully
resolved address. -/
def isOkResult : Except ResolveError Int → Bool
  | Except.ok _ => true
  | Except.error _ => false

/-- Mocked region layout used to refute the literal reading of the scan
ordering claim: the region reported at address 102 begins at base 0, below
the region reported at address 100, so the walk revisits lower addresses. -/
def cexQuery : Nat → Option Region := fun a =>
  if a = 100 then some ⟨100, 2, 4096, 2⟩
  else if a = 102 then some ⟨0, 200, 4096, 2⟩
  else none

/-! ## Theorems -/

/-- C1: the claim states that every supported tag decodes per its
signed/unsigned/float little-endian rule and that only an unrecognized tag
returns the raw buffer. The code violates it for every unsigned tag: the
outer dispatch `self._data_type.startswith('int')` is False on `uint*`
strings, so the unsigned branches inside it are dead code and a buffer of
exactly `size_of(t)` bytes under a `uint*` tag falls through to
`return data`, the raw buffer. -/
theorem C1_uint_tags_decode_raw :
    decode "uint8" [5] = Value.raw [5] ∧
    decode "uint16" [234, 253] = Value.raw [234, 253] ∧
    decode "uint32" [42, 0, 0, 0] = Value.raw [42, 0, 0, 0] ∧
    decode "uint64" [1, 0, 0, 0, 0, 0, 0, 255] =
      Value.raw [1, 0, 0, 0, 0, 0, 0, 255] := by
  decide

/-- C2: the claim states the round-trip `decode(encode(v, t), t) == v` for
every supported tag. It fails for every unsigned tag: packing the integer 5
under `uint8` takes the unrecognized-type fallback `bytes(size)` (again
because `'uint8'.startswith('int')` is False), producing the zero buffer,
and decoding that buffer yields the raw bytes, not the integer 5. -/
theorem C2_uint8_roundtrip_fails :
    scan_pack "uint8" (ScanVal.int 5) = some [0] ∧
    decode "uint8" [0] = Value.raw [0] ∧
    Value.raw [0] ≠ Value.int 5 := by
  decide

/-- C3 counterexample: at base address 0 (an unsigned 64-bit value), resolve
with an empty offsets sequence does not return the base address — Python's
truthiness guard `if not self.base_address` treats 0 as unset and raises
`RuntimeError("Base address not set")`. -/
theorem C3_counterexample :
    calculate_address (fun _ => some 0) 0 [] =
      Except.error ResolveError.baseNotSet ∧
    calculate_address (fun _ => some 0) 0 [] ≠ Except.ok 0 := by
  refine ⟨rfl, ?_⟩
  simp [calculate_address]

/-- C3 amended: for every nonzero base address, resolve with an empty
offsets sequence performs no memory reads (the result is the same for every
memory state) and returns the base address unchanged. -/
theorem C3_empty_offsets_returns_base (mem : Memory) (base : Nat)
    (h : base ≠ 0) :
    calculate_address mem base [] = Except.ok (base : Int) := by
  unfold calculate_address
  rw [if_neg h]
  rfl

/-- Witness for C3 at base address 7 over a fully unmapped memory. -/
theorem C3_witness :
    calculate_address (fun _ => none) 7 [] = Except.ok 7 :=
  C3_empty_offsets_returns_base (fun _ => none) 7 (by decide)

/-- Helper for C4: if some intermediate pointer read of the chain walk
fails, the walk returns a `readFailure` error. -/
theorem resolveChain_of_chainFails (mem : Memory) :
    ∀ (offs : List Int) (addr : Int), chainFails mem addr offs →
      ∃ a, resolveChain mem addr offs =
        Except.error (ResolveError.readFailure a) := by
  intro offs
  induction offs with
  | nil =>
    intro addr h
    exact absurd h (by simp [chainFails])
  | cons off rest ih =>
    intro addr h
    rw [chainFails] at h
    rcases h with hn | ⟨bs, hbs, hf⟩
    · exact ⟨addr, by simp [resolveChain, hn]⟩
    · obtain ⟨a, ha⟩ := ih _ hf
      exact ⟨a, by simp [resolveChain, hbs, ha]⟩

/-- C4: for a chain in which some intermediate 8-byte pointer read cannot
retrieve the full pointer width (`chainFails`, which is only satisfiable on
non-empty offsets), resolution from a nonzero base fails with a
`readFailure` error result at the failing address — it never returns an
address, partial or otherwise. The nonzero-base hypothesis reflects that a
zero base aborts earlier with `baseNotSet`, before any read is attempted. -/
theorem C4_read_failure_aborts (mem : Memory) (base : Nat)
    (offsets : List Int) (hb : base ≠ 0)
    (hf : chainFails mem (base : Int) offsets) :
    (∃ a, calculate_address mem base offsets =
      Except.error (ResolveError.readFailure a)) ∧
    isOkResult (calculate_address mem base offsets) = false := by
  obtain ⟨a, ha⟩ := resolveChain_of_chainFails mem offsets (base : Int) hf
  have hc : calculate_address mem base offsets =
      Except.error (ResolveError.readFailure a) := by
    unfold calculate_address
    rw [if_neg hb]
    exact ha
  exact ⟨⟨a, hc⟩, by rw [hc]; rfl⟩

/-- Witness for C4: base 1 with one offset over a fully unmapped memory. -/
theorem C4_witness :
    isOkResult (calculate_address (fun _ => none) 1 [0]) = false :=
  (C4_read_failure_aborts (fun _ => none) 1 [0] (by decide)
    (Or.inl rfl)).2

/-- C5: the claim states that a region's bytes are searched exactly when its
state is committed and its protection excludes the guard and no-access
flags. The code instead tests `(Protect & 0xFF) not in [0x01, 0x04, 0x10]`:
a committed plain `PAGE_READWRITE` region (protect 0x04, neither guard nor
no-access) is skipped — the scan below finds nothing although the pattern is
present in it — while a committed `PAGE_GUARD | PAGE_READONLY` region
(protect 0x102, guard set) is searched, because the mask discards the guard
bit: the scan below returns the match at address 4. -/
theorem C5_region_filter_diverges :
    scan_memory (fun a => if a < 4096 then some ⟨0, 4096, 4096, 4⟩ else none)
        (fun a => if a = 100 then some 42 else some 0) [42, 0, 0, 0]
        0 4096 100 3 = [] ∧
    scan_memory (fun a => if a < 8 then some ⟨0, 8, 4096, 258⟩ else none)
        (fun a => if a = 4 then some 42 else some 0) [42, 0, 0, 0]
        0 8 100 3 = [4] := by
  decide

/-- C10: when attaching fails, `create_memory_hook` returns a failure result
and the whole builtin state — in particular the registry mapping and any
hook stored under the same id — is returned unchanged. -/
theorem C10_attach_failure_preserves_state (st : BuiltinState)
    (hookId processName : String) (baseAddress : Nat) (offsets : List Int)
    (dataType : String) :
    create_memory_hook st hookId processName baseAddress offsets dataType
      none = (st, false) :=
  rfl

/-- Helper for C8: a dict assignment makes the key map to the new value. -/
theorem dictGet_dictSet (k : String) (v : Hook) :
    ∀ l : List (String × Hook), dictGet k (dictSet k v l) = some v := by
  intro l
  induction l with
  | nil => simp [dictSet, dictGet]
  | cons kv rest ih =>
    obtain ⟨k', v'⟩ := kv
    by_cases h : k' = k
    · simp [dictSet, dictGet, h]
    · simp [dictSet, dictGet, h, ih]

/-- C8: a second successful `create_memory_hook` under a hook id already
present in the registry succeeds, replaces the registry entry with the new
hook (new process name, target, data type, and freshly opened handle), and
does not detach the old hook's OS handle: a handle `g` held by the old hook
and open beforehand is still open afterwards. -/
theorem C8_recreate_replaces_without_detach (st : BuiltinState)
    (hookId processName : String) (baseAddress : Nat) (offsets : List Int)
    (dataType : String) (h g : Nat) (old : Hook)
    (hold : dictGet hookId st.hooks = some old)
    (hg : old.handle = some g) (hmem : g ∈ st.openHandles) :
    (create_memory_hook st hookId processName baseAddress offsets dataType
      (some h)).2 = true ∧
    dictGet hookId (create_memory_hook st hookId processName baseAddress
      offsets dataType (some h)).1.hooks =
      some ⟨processName, baseAddress, offsets, dataType, some h⟩ ∧
    g ∈ (create_memory_hook st hookId processName baseAddress offsets
      dataType (some h)).1.openHandles := by
  refine ⟨rfl, ?_, ?_⟩
  · simp [create_memory_hook, dictGet_dictSet]
  · simp only [create_memory_hook]
    exact List.mem_append.mpr (Or.inl hmem)

/-- Witness for C8: a registry holding hook id "a" with open handle 7 is
re-created under id "a" with new handle 9; the entry is replaced and handle
7 stays open. -/
theorem C8_witness :
    (create_memory_hook ⟨[("a", ⟨"p", 1, [], "int32", some 7⟩)], [7]⟩
      "a" "q" 2 [8] "uint8" (some 9)).2 = true ∧
    dictGet "a" (create_memory_hook
      ⟨[("a", ⟨"p", 1, [], "int32", some 7⟩)], [7]⟩
      "a" "q" 2 [8] "uint8" (some 9)).1.hooks =
      some ⟨"q", 2, [8], "uint8", some 9⟩ ∧
    7 ∈ (create_memory_hook ⟨[("a", ⟨"p", 1, [], "int32", some 7⟩)], [7]⟩
      "a" "q" 2 [8] "uint8" (some 9)).1.openHandles :=
  C8_recreate_replaces_without_detach
    ⟨[("a", ⟨"p", 1, [], "int32", some 7⟩)], [7]⟩
    "a" "q" 2 [8] "uint8" 9 7 ⟨"p", 1, [], "int32", some 7⟩
    (by decide) rfl (by decide)

/-- Helper for C7/C9: prepending already-emitted notifications to the
accumulator shifts the emitted list by that prefix and leaves the tracked
last value unchanged. -/
theorem monitorFold_shift (reads : List (Except String Value)) :
    ∀ (last : Option Value) (ns : List Value),
      List.foldl monitorStep (last, ns) reads =
        ((List.foldl monitorStep (last, []) reads).1,
          ns ++ (List.foldl monitorStep (last, []) reads).2) := by
  induction reads with
  | nil => intro last ns; simp
  | cons x rest ih =>
    intro last ns
    cases x with
    | error e =>
      simp only [List.foldl_cons, monitorStep]
      exact ih last ns
    | ok v =>
      simp only [List.foldl_cons, monitorStep]
      cases hne : pyNeLast v last with
      | false =>
        simp only [hne, Bool.false_eq_true, if_false]
        exact ih last ns
      | true =>
        simp only [hne, if_true]
        rw [ih (some v) (ns ++ [v]), ih (some v) ([] ++ [v])]
        simp [List.append_assoc]

/-- C7: across any prefix of polls of one monitoring session, a further poll
whose decoded value differs (Python `!=`) from the session's last observed
value emits exactly one notification, carrying the new value; a further
poll whose decoded value equals the last observed value emits none. -/
theorem C7_notify_iff_changed (reads : List (Except String Value))
    (v : Value) :
    (monitorRun (reads ++ [Except.ok v])).2 =
      (monitorRun reads).2 ++
        (if pyNeLast v (monitorRun reads).1 then [v] else []) := by
  unfold monitorRun
  rw [List.foldl_append]
  cases hs : List.foldl monitorStep ((none : Option Value), ([] : List Value))
    reads with
  | mk last ns =>
    simp only [List.foldl_cons, List.foldl_nil, monitorStep]
    cases hne : pyNeLast v last with
    | false => simp [hne]
    | true => simp [hne]

/-- Helper for C9: failed reads are logged and change neither the last
observed value nor the emitted notifications. -/
theorem monitorFold_errors (errs : List String) :
    List.foldl monitorStep ((none : Option Value), ([] : List Value))
      (errs.map Except.error) = (none, []) := by
  induction errs with
  | nil => rfl
  | cons e rest ih => simp only [List.map_cons, List.foldl_cons, monitorStep, ih]

/-- C9: in every monitoring session the loop-local last observed value
starts as `None`, so after any number of failed polls the first successful
read fires the callbacks with the current value — even if the target's
value never changed — and the session continues from there. A restarted
session is a fresh `monitorRun`, so it re-fires this initial notification. -/
theorem C9_first_read_always_fires (errs : List String) (v : Value)
    (rest : List (Except String Value)) :
    (monitorRun (errs.map Except.error ++ Except.ok v :: rest)).2 =
      v :: (List.foldl monitorStep (some v, []) rest).2 := by
  unfold monitorRun
  rw [List.foldl_append, monitorFold_errors]
  simp only [List.foldl_cons, monitorStep, pyNeLast, if_true]
  rw [monitorFold_shift rest (some v) ([] ++ [v])]
  simp

/-- Helper: a successful read returns exactly the requested number of bytes. -/
theorem readMemory_length (mem : Memory) :
    ∀ (n : Nat) (addr : Int) (bs : List Nat),
      readMemory mem addr n = some bs → bs.length = n := by
  intro n
  induction n with
  | zero =>
    intro addr bs h
    rw [readMemory] at h
    injection h with h2
    rw [← h2]
    rfl
  | succ k ih =>
    intro addr bs h
    rw [readMemory] at h
    cases hm : mem addr with
    | none =>
      rw [hm] at h
      cases hr : readMemory mem (addr + 1) k <;> rw [hr] at h <;> cases h
    | some b =>
      rw [hm] at h
      cases hr : readMemory mem (addr + 1) k with
      | none => rw [hr] at h; cases h
      | some tl =>
        rw [hr] at h
        injection h with h2
        rw [← h2, List.length_cons, ih (addr + 1) tl hr]

/-- Helper: a pattern match at a position fits inside the buffer. -/
theorem matchAt_le (data search : List Nat) (pos : Nat)
    (h : matchAt data search pos = true) (hS : 0 < search.length) :
    pos + search.length ≤ data.length := by
  have heq := of_decide_eq_true h
  have hlen : ((data.drop pos).take search.length).length = search.length := by
    rw [heq]
  rw [List.length_take, List.length_drop] at hlen
  have h2 := min_eq_left_iff.mp hlen
  omega

/-- Helper: the byte-position loop keeps the collected addresses strictly
increasing, emits only addresses of in-buffer matches at or after the
current position, and never exceeds the result cap. -/
theorem posLoop_spec (search data : List Nat) (addr maxResults : Nat)
    (hS : 0 < search.length) :
    ∀ (fuel pos : Nat) (acc : List Nat),
      List.Pairwise (· < ·) acc →
      (∀ x ∈ acc, x < addr + pos) →
      acc.length < maxResults →
      List.Pairwise (· < ·) (posLoop search data addr maxResults fuel pos acc) ∧
      (∀ x ∈ posLoop search data addr maxResults fuel pos acc,
        x ∈ acc ∨ (addr + pos ≤ x ∧ x + search.length ≤ addr + data.length)) ∧
      (posLoop search data addr maxResults fuel pos acc).length ≤ maxResults := by
  intro fuel
  induction fuel with
  | zero =>
    intro pos acc hp hb hl
    exact ⟨hp, fun x hx => Or.inl hx, Nat.le_of_lt hl⟩
  | succ n ih =>
    intro pos acc hp hb hl
    rw [posLoop]
    by_cases hm : matchAt data search pos = true
    · rw [if_pos hm]
      have hpos := matchAt_le data search pos hm hS
      have hp2 : List.Pairwise (· < ·) (acc ++ [addr + pos]) := by
        rw [List.pairwise_append]
        refine ⟨hp, by simp, ?_⟩
        intro x hx y hy
        rw [List.mem_singleton] at hy
        subst hy
        exact hb x hx
      have hmem2 : ∀ x ∈ acc ++ [addr + pos],
          x ∈ acc ∨ (addr + pos ≤ x ∧ x + search.length ≤ addr + data.length) := by
        intro x hx
        rcases List.mem_append.mp hx with hx | hx
        · exact Or.inl hx
        · rw [List.mem_singleton] at hx
          subst hx
          exact Or.inr ⟨Nat.le_refl _, by omega⟩
      by_cases hcap : maxResults ≤ acc.length + 1
      · rw [if_pos hcap]
        refine ⟨hp2, hmem2, ?_⟩
        rw [List.length_append]
        simp only [List.length_singleton]
        omega
      · rw [if_neg hcap]
        have hb2 : ∀ x ∈ acc ++ [addr + pos], x < addr + (pos + 1) := by
          intro x hx
          rcases List.mem_append.mp hx with hx | hx
          · have := hb x hx; omega
          · rw [List.mem_singleton] at hx; omega
        have hl2 : (acc ++ [addr + pos]).length < maxResults := by
          rw [List.length_append]
          simp only [List.length_singleton]
          omega
        obtain ⟨P, M, L⟩ := ih (pos + 1) (acc ++ [addr + pos]) hp2 hb2 hl2
        refine ⟨P, ?_, L⟩
        intro x hx
        rcases M x hx with hx2 | ⟨h1, h2⟩
        · exact hmem2 x hx2
        · exact Or.inr ⟨by omega, h2⟩
    · rw [if_neg hm]
      have hb2 : ∀ x ∈ acc, x < addr + (pos + 1) := by
        intro x hx
        have := hb x hx
        omega
      obtain ⟨P, M, L⟩ := ih (pos + 1) acc hp hb2 hl
      refine ⟨P, ?_, L⟩
      intro x hx
      rcases M x hx with hx2 | ⟨h1, h2⟩
      · exact Or.inl hx2
      · exact Or.inr ⟨by omega, h2⟩

/-- Helper: the chunk loop keeps the collected addresses strictly
increasing, emits only addresses below the region's end, and never exceeds
the result cap. -/
theorem chunkLoop_spec (mem : Memory) (search : List Nat)
    (rs rsize maxResults : Nat) (hS : 0 < search.length) :
    ∀ (fuel offset : Nat) (acc : List Nat),
      List.Pairwise (· < ·) acc →
      (∀ x ∈ acc, x < rs + offset) →
      acc.length < maxResults →
      List.Pairwise (· < ·)
        (chunkLoop mem search rs rsize maxResults fuel offset acc) ∧
      (∀ x ∈ chunkLoop mem search rs rsize maxResults fuel offset acc,
        x ∈ acc ∨ x < rs + rsize) ∧
      (chunkLoop mem search rs rsize maxResults fuel offset acc).length ≤
        maxResults := by
  intro fuel
  induction fuel with
  | zero =>
    intro offset acc hp hb hl
    exact ⟨hp, fun x hx => Or.inl hx, Nat.le_of_lt hl⟩
  | succ n ih =>
    intro offset acc hp hb hl
    simp only [chunkLoop]
    by_cases hoff : offset < rsize
    · rw [if_pos hoff]
      cases hread : readMemory mem ((rs + offset : Nat) : Int)
          (min 4096 (rsize - offset)) with
      | none =>
        have hb2 : ∀ x ∈ acc, x < rs + (offset + 4096) := by
          intro x hx
          have := hb x hx
          omega
        exact ih (offset + 4096) acc hp hb2 hl
      | some data =>
        dsimp only
        have hdl : data.length = min 4096 (rsize - offset) :=
          readMemory_length mem _ _ data hread
        have hd1 : data.length ≤ 4096 := by
          rw [hdl]; exact Nat.min_le_left _ _
        have hd2 : data.length ≤ rsize - offset := by
          rw [hdl]; exact Nat.min_le_right _ _
        have hb0 : ∀ x ∈ acc, x < (rs + offset) + 0 := by
          intro x hx
          have := hb x hx
          omega
        obtain ⟨P2, M2, L2⟩ := posLoop_spec search data (rs + offset)
          maxResults hS (data.length + 1 - search.length) 0 acc hp hb0 hl
        set acc2 := posLoop search data (rs + offset) maxResults
          (data.length + 1 - search.length) 0 acc with hacc2
        have hmem2 : ∀ x ∈ acc2, x ∈ acc ∨ x < rs + rsize := by
          intro x hx
          rcases M2 x hx with h1 | ⟨h1, h2⟩
          · exact Or.inl h1
          · right; omega
        by_cases hcap : maxResults ≤ acc2.length
        · rw [if_pos hcap]
          exact ⟨P2, hmem2, L2⟩
        · rw [if_neg hcap]
          have hb3 : ∀ x ∈ acc2, x < rs + (offset + 4096) := by
            intro x hx
            rcases M2 x hx with h1 | ⟨h1, h2⟩
            · have := hb x h1; omega
            · omega
          have hl3 : acc2.length < maxResults := by omega
          obtain ⟨P3, M3, L3⟩ := ih (offset + 4096) acc2 P2 hb3 hl3
          refine ⟨P3, ?_, L3⟩
          intro x hx
          rcases M3 x hx with h1 | h1
          · exact hmem2 x h1
          · exact Or.inr h1
    · rw [if_neg hoff]
      exact ⟨hp, fun x hx => Or.inl hx, Nat.le_of_lt hl⟩

/-- Helper: under a consistent mock, the region reported at an address at or
past the end of a previously reported region begins at or past that end. -/
theorem wf_next_base (query : Nat → Option Region) (hq : QueryWF query)
    (p cur : Nat) (rp r : Region) (hp : query p = some rp)
    (hr : query cur = some r) (hcur : rp.base + rp.size ≤ cur) :
    rp.base + rp.size ≤ r.base := by
  by_contra hcon
  push_neg at hcon
  obtain ⟨hb1, hb2, hint⟩ := hq p rp hp
  obtain ⟨hc1, hc2, hcint⟩ := hq cur r hr
  have h1 : query (rp.base + rp.size - 1) = some rp := by
    apply hint <;> omega
  have h2 : query (rp.base + rp.size - 1) = some r := by
    apply hcint <;> omega
  rw [h1] at h2
  have h3 : rp = r := Option.some.inj h2
  rw [← h3] at hc2
  omega

/-- Helper: the region walk keeps the collected addresses strictly
increasing and never exceeds the result cap, given a consistent mock and a
nonempty pattern. -/
theorem regionLoop_spec (query : Nat → Option Region) (mem : Memory)
    (search : List Nat) (maxAddr maxResults : Nat)
    (hq : QueryWF query) (hS : 0 < search.length) :
    ∀ (fuel cur : Nat) (acc : List Nat),
      List.Pairwise (· < ·) acc →
      (acc = [] ∨ ∃ p rp, query p = some rp ∧ rp.base + rp.size ≤ cur ∧
        ∀ x ∈ acc, x < rp.base + rp.size) →
      acc.length ≤ maxResults →
      List.Pairwise (· < ·)
        (regionLoop query mem search maxAddr maxResults fuel cur acc) ∧
      (regionLoop query mem search maxAddr maxResults fuel cur acc).length ≤
        maxResults := by
  intro fuel
  induction fuel with
  | zero =>
    intro cur acc hp hinv hl
    exact ⟨hp, hl⟩
  | succ n ih =>
    intro cur acc hp hinv hl
    simp only [regionLoop]
    by_cases hg : cur < maxAddr ∧ acc.length < maxResults
    · rw [if_pos hg]
      cases hquery : query cur with
      | none => exact ⟨hp, hl⟩
      | some r =>
        dsimp only
        obtain ⟨hr1, hr2, hrint⟩ := hq cur r hquery
        have hbase : ∀ x ∈ acc, x < r.base + 0 := by
          intro x hx
          rcases hinv with rfl | ⟨p, rp, hpq, hpe, hpb⟩
          · cases hx
          · have hnb := wf_next_base query hq p cur rp r hpq hquery hpe
            have := hpb x hx
            omega
        by_cases hscan : scannable r = true
        · rw [if_pos hscan]
          obtain ⟨P2, M2, L2⟩ := chunkLoop_spec mem search r.base r.size
            maxResults hS r.size 0 acc hp hbase hg.2
          apply ih (cur + r.size) _ P2 ?_ L2
          right
          refine ⟨cur, r, hquery, by omega, ?_⟩
          intro x hx
          rcases M2 x hx with h1 | h1
          · have := hbase x h1; omega
          · exact h1
        · rw [if_neg hscan]
          apply ih (cur + r.size) acc hp ?_ hl
          rcases hinv with rfl | ⟨p, rp, hpq, hpe, hpb⟩
          · exact Or.inl rfl
          · exact Or.inr ⟨p, rp, hpq, by omega, hpb⟩
    · rw [if_neg hg]
      exact ⟨hp, hl⟩

set_option maxRecDepth 10000 in
/-- C6 counterexample: the claim quantifies over every pattern, every
`max_results`, and every mocked region layout, but the code trusts the
layout: under `cexQuery` the region reported at address 102 begins at base
0, so the walk rescans low addresses and the returned sequence is
[100, 101, 0] — not strictly increasing. -/
theorem C6_counterexample :
    ¬ List.Pairwise (· < ·)
      (scan_memory cexQuery (fun _ => some 0) [0] 100 1000 3 5) := by
  decide

/-- C6 amended: for every nonempty pattern, every `max_results`, every
memory state, and every consistent mocked region layout (each reported
region contains the queried address and every address of a reported region
reports that same region), the scan returns at most `max_results` addresses
and the returned addresses are strictly increasing — for every walk fuel. -/
theorem C6_scan_capped_and_sorted (query : Nat → Option Region)
    (mem : Memory) (search : List Nat)
    (minAddr maxAddr maxResults fuel : Nat)
    (hq : QueryWF query) (hS : search ≠ []) :
    (scan_memory query mem search minAddr maxAddr maxResults fuel).length ≤
      maxResults ∧
    List.Pairwise (· < ·)
      (scan_memory query mem search minAddr maxAddr maxResults fuel) := by
  have hS' : 0 < search.length := List.length_pos.mpr hS
  obtain ⟨P, L⟩ := regionLoop_spec query mem search maxAddr maxResults hq hS'
    fuel minAddr [] List.Pairwise.nil (Or.inl rfl) (Nat.zero_le _)
  exact ⟨L, P⟩

/-- Witness for C6: a single committed readable region holding one match. -/
theorem C6_witness :
    (scan_memory (fun a => if a < 8 then some ⟨0, 8, 4096, 2⟩ else none)
      (fun a => if a = 4 then some 42 else some 0) [42, 0, 0, 0]
      0 8 100 3).length ≤ 100 ∧
    List.Pairwise (· < ·)
      (scan_memory (fun a => if a < 8 then some ⟨0, 8, 4096, 2⟩ else none)
        (fun a => if a = 4 then some 42 else some 0) [42, 0, 0, 0]
        0 8 100 3) :=
  C6_scan_capped_and_sorted
    (fun a => if a < 8 then some ⟨0, 8, 4096, 2⟩ else none)
    (fun a => if a = 4 then some 42 else some 0) [42, 0, 0, 0] 0 8 100 3
    (by
      intro a r h
      dsimp only at h ⊢
      by_cases ha : a < 8
      · rw [if_pos ha] at h
        have h2 : (⟨0, 8, 4096, 2⟩ : Region) = r := Option.some.inj h
        subst h2
        refine ⟨Nat.zero_le a, ?_, ?_⟩
        · show a < 0 + 8
          omega
        · intro b hb1 hb2
          have hb8 : b < 8 := hb2
          rw [if_pos hb8]
      · rw [if_neg ha] at h
        exact Option.noConfusion h)
    (by decide)
